import Mathlib

/-!
Verification development for the AccuraRate document-comparison engine
(source: src/src/App.js).  The definitions below are a shallow embedding of
the section-extraction and structural-diff core: the outline resolver
(processOutline and the post-processing in parsePdf), the page fallback
segmenter, the section text extractor, the numeric comparator
(extractNumerics, parseNumericComparison), the compare driver
(handleCompare) and the export row builder (handleExport).

External capabilities (the PDF codec, the diff library, the spreadsheet
writer) are modelled as function parameters: destination resolution is a
function from an opaque destination handle to an optional 0-based page
index, page text is a function from page number to string, and the line
differ is a function producing a list of diff parts.

JavaScript strings are modelled as Lean strings; the character-level
operations the source uses (trim, split on a character, regex scan for
decimal numbers) are re-implemented below on lists of characters so that
every definition evaluates inside the kernel.  Array.prototype.sort with
the comparator (a, b) => a.startPage - b.startPage is a stable sort by
startPage and is modelled by insertion sort, which computes the same
function as any stable sort.
-/

namespace AccuraRate

/-- JavaScript String.prototype.trim on a character list. -/
def jsTrim (cs : List Char) : List Char :=
  ((cs.dropWhile Char.isWhitespace).reverse.dropWhile Char.isWhitespace).reverse

/-- JavaScript String.prototype.trim. -/
def jsTrimS (s : String) : String := String.mk (jsTrim s.toList)

/-- One section produced by the outline resolver or the page fallback
segmenter (the object literals pushed in App.js lines 71-76, 82-87 and
128).  The fallback objects carry no level field, hence the Option. -/
structure Section where
  title : String
  startPage : Nat
  level : Option Nat
  hasValidPage : Bool
deriving DecidableEq, Repr

/-- A node of the PDF outline tree: a title, an optional destination
(an opaque handle, modelled as a number to be fed to the resolution
capability) and the list of child nodes (item.items). -/
inductive OutlineNode where
  | mk (title : String) (dest : Option Nat) (items : List OutlineNode)

/-- JavaScript expression pageNum || fallback for an optional number:
null and 0 are falsy. -/
def jsOr (pageNum : Option Nat) (fallback : Nat) : Nat :=
  match pageNum with
  | some n => if n != 0 then n else fallback
  | none => fallback

mutual

/-- Body of the for-loop of processOutline (App.js lines 40-94) for one
outline item.  The resolution chain getDestination/getPageIndex (with its
nested fallback attempts) either yields a 0-based page index or fails;
it is modelled by the capability resolve.  pageNum is the 1-based page.
Note the source order: the page estimate (line 66) is assigned to pageNum
before hasValidPage is computed from pageNum !== null (line 75). -/
def processItem (resolve : Nat → Option Nat) (item : OutlineNode) (level : Nat)
    (sections : List Section) : List Section :=
  match item with
  | .mk title dest items =>
    let pageNum0 : Option Nat :=
      match dest with
      | some d => (resolve d).map (· + 1)
      | none => none
    let pageNum : Option Nat :=
      if pageNum0.isNone && title != "" then some (sections.length + 1) else pageNum0
    let sections1 : List Section :=
      if title != "" && jsTrimS title != "" then
        sections ++ [{ title := jsTrimS title,
                       startPage := jsOr pageNum (sections.length + 1),
                       level := some level,
                       hasValidPage := pageNum.isSome }]
      else sections
    processList resolve items (level + 1) sections1

/-- processOutline (App.js lines 39-95): fold the loop body over the item
list, then recurse into children one level deeper. -/
def processList (resolve : Nat → Option Nat) (items : List OutlineNode) (level : Nat)
    (sections : List Section) : List Section :=
  match items with
  | [] => sections
  | item :: rest => processList resolve rest level (processItem resolve item level sections)

end

/-- Helper for dedupByTitle: keep a section exactly when its title has not
been seen earlier in the list. -/
def dedupByTitleAux (seen : List String) : List Section → List Section
  | [] => []
  | s :: rest =>
    if seen.contains s.title then dedupByTitleAux seen rest
    else s :: dedupByTitleAux (seen ++ [s.title]) rest

/-- Deduplication by exact title, first occurrence wins (App.js lines
101-103: filter keeping the entry whose index equals the first index with
the same title). -/
def dedupByTitle (sections : List Section) : List Section :=
  dedupByTitleAux [] sections

/-- Stable sort by startPage, modelling Array.prototype.sort with the
comparator (a, b) => a.startPage - b.startPage (App.js lines 109, 113). -/
def sortByStartPage (l : List Section) : List Section :=
  List.insertionSort (fun a b => a.startPage ≤ b.startPage) l

instance : IsTotal Section (fun a b => a.startPage ≤ b.startPage) :=
  ⟨fun a b => Nat.le_total a.startPage b.startPage⟩

instance : IsTrans Section (fun a b => a.startPage ≤ b.startPage) :=
  ⟨fun _ _ _ hab hbc => Nat.le_trans hab hbc⟩

/-- Math.ceil (a / b) on natural numbers. -/
def ceilDiv (a b : Nat) : Nat := (a + b - 1) / b

/-- The forEach of App.js lines 110-112: the invalid section at 0-based
position i receives startPage Math.ceil(numPages / (count + 1)) * (i + 1),
where count is the total number of invalid sections. -/
def assignInvalidPages (numPages count : Nat) : List Section → Nat → List Section
  | [], _ => []
  | s :: rest, i =>
    { s with startPage := ceilDiv numPages (count + 1) * (i + 1) }
      :: assignInvalidPages numPages count rest (i + 1)

/-- The forEach of App.js lines 115-117 (all pages unresolved): the
section at 0-based position i receives startPage
Math.ceil(numPages / count) * i + 1. -/
def assignAllPages (numPages count : Nat) : List Section → Nat → List Section
  | [], _ => []
  | s :: rest, i =>
    { s with startPage := ceilDiv numPages count * i + 1 }
      :: assignAllPages numPages count rest (i + 1)

/-- App.js lines 105-118: partition by hasValidPage; if some section has a
valid page, sort the valid ones, spread the invalid ones evenly, merge and
re-sort; otherwise spread all sections evenly. -/
def distributeSections (numPages : Nat) (sections : List Section) : List Section :=
  let validPageSections := sections.filter (fun s => s.hasValidPage)
  let invalidPageSections := sections.filter (fun s => !s.hasValidPage)
  if validPageSections.length > 0 then
    sortByStartPage
      (sortByStartPage validPageSections ++
        assignInvalidPages numPages invalidPageSections.length invalidPageSections 0)
  else
    assignAllPages numPages sections.length sections 0

/-- App.js lines 131-134: clamp every startPage to numPages. -/
def clampSections (numPages : Nat) (sections : List Section) : List Section :=
  sections.map (fun s => { s with startPage := min s.startPage numPages })

/-- Parse mode recorded by parsePdf: TOC when outline sections were used,
PAGES for the page-by-page fallback. -/
inductive ParseMode where
  | TOC
  | PAGES
deriving DecidableEq, Repr

/-- One fallback section (App.js line 128): titled "Page i", startPage i,
hasValidPage true, no level field. -/
def pageSection (i : Nat) : Section :=
  { title := "Page " ++ toString i, startPage := i, level := none, hasValidPage := true }

/-- Page fallback segmenter (App.js lines 127-129): one section per
page. -/
def fallbackSections (numPages : Nat) : List Section :=
  (List.range' 1 numPages).map pageSection

/-- The section-building part of parsePdf (App.js lines 36-135): run the
outline traversal when the outline is present and non-empty, deduplicate
and distribute when it produced sections, fall back to page-by-page
segmentation when it produced none, and clamp startPages otherwise. -/
def parsePdfSections (resolve : Nat → Option Nat) (outline : Option (List OutlineNode))
    (numPages : Nat) : List Section × ParseMode :=
  let traversed : List Section :=
    match outline with
    | some items => if items.length > 0 then processList resolve items 0 [] else []
    | none => []
  let resolved : List Section :=
    if traversed.length > 0 then distributeSections numPages (dedupByTitle traversed)
    else traversed
  if resolved.length = 0 then (fallbackSections numPages, ParseMode.PAGES)
  else (clampSections numPages resolved, ParseMode.TOC)

/-- A section together with its extracted text (App.js line 148). -/
structure ExtractedSection where
  title : String
  text : String
deriving DecidableEq, Repr

/-- End page of the section whose successors are rest (App.js line 140):
the next section's startPage minus one, or numPages for the last section.
Computed in the integers because the source computes startPage - 1 on
JavaScript numbers. -/
def sectionEnd (rest : List Section) (numPages : Nat) : Int :=
  match rest with
  | next :: _ => (next.startPage : Int) - 1
  | [] => (numPages : Int)

/-- The pages startPage, startPage + 1, ..., endPage visited by the
extraction loop (App.js line 142), empty when endPage < startPage. -/
def pageRange (startPage : Nat) (endPage : Int) : List Nat :=
  List.range' startPage (endPage + 1 - (startPage : Int)).toNat

/-- The guard of App.js line 143: skip pages outside [1, numPages]. -/
def inBounds (numPages j : Nat) : Bool :=
  decide (1 ≤ j) && decide (j ≤ numPages)

/-- The pages actually fetched by the section text extractor, in fetch
order, over the whole section list (App.js lines 138-147). -/
def pagesRead (numPages : Nat) : List Section → List Nat
  | [] => []
  | sec :: rest =>
    ((pageRange sec.startPage (sectionEnd rest numPages)).filter (inBounds numPages))
      ++ pagesRead numPages rest

/-- Section text extractor (App.js lines 137-149): for each section,
concatenate the page text of every in-bounds page from its startPage to
its end page.  The source appends each page's text directly
(sectionText += ...), with no separator between pages; the single-space
join at line 146 is between the text items within one page and is part of
the pageText capability here. -/
def extractLoop (pageText : Nat → String) (numPages : Nat) : List Section → List ExtractedSection
  | [] => []
  | sec :: rest =>
    { title := sec.title,
      text := String.join
        (((pageRange sec.startPage (sectionEnd rest numPages)).filter
            (inBounds numPages)).map pageText) }
      :: extractLoop pageText numPages rest

/-- Whole parsePdf (App.js lines 27-158) after decoding: build sections,
extract their text, return them with the mode. -/
def parsePdf (resolve : Nat → Option Nat) (outline : Option (List OutlineNode))
    (numPages : Nat) (pageText : Nat → String) : List ExtractedSection × ParseMode :=
  let (sections, mode) := parsePdfSections resolve outline numPages
  (extractLoop pageText numPages sections, mode)

/-- Join a list of strings with a single space between consecutive
elements. -/
def joinWithSpace : List String → String
  | [] => ""
  | [s] => s
  | s :: rest => s ++ " " ++ joinWithSpace rest

/-- Modelled from the spec, section 4.3, for comparison against the
source extractor: the variant of the section text extractor whose page
texts are joined with a single space between consecutive pages, as claim
C5 words it.  The source (App.js line 141-146) instead appends page texts
directly. -/
def extractLoopSpaceJoined (pageText : Nat → String) (numPages : Nat) :
    List Section → List ExtractedSection
  | [] => []
  | sec :: rest =>
    { title := sec.title,
      text := joinWithSpace
        (((pageRange sec.startPage (sectionEnd rest numPages)).filter
            (inBounds numPages)).map pageText) }
      :: extractLoopSpaceJoined pageText numPages rest

/-! ## Numeric comparator (App.js lines 230-282) -/

/-- Greedy star of the regex group comma-then-three-digits: consume a
comma followed by exactly three digits as long as possible. -/
def matchCommaGroups : List Char → List Char × List Char
  | ',' :: d1 :: d2 :: d3 :: rest =>
    if d1.isDigit && d2.isDigit && d3.isDigit then
      let (g, r) := matchCommaGroups rest
      (',' :: d1 :: d2 :: d3 :: g, r)
    else ([], ',' :: d1 :: d2 :: d3 :: rest)
  | cs => ([], cs)

/-- Optional fractional part: a dot followed by one or more digits,
greedy; matches nothing when the dot is not followed by a digit. -/
def matchFrac : List Char → List Char × List Char
  | '.' :: c :: rest =>
    if c.isDigit then
      ('.' :: (c :: rest).takeWhile Char.isDigit, (c :: rest).dropWhile Char.isDigit)
    else ([], '.' :: c :: rest)
  | cs => ([], cs)

/-- The part of the number regex after the optional sign: a greedy run of
one or more digits, then the thousands groups, then the optional
fractional part.  Fails when the input does not start with a digit. -/
def matchNumCore (sign cs1 : List Char) : Option (List Char × List Char) :=
  match cs1 with
  | c :: _ =>
    if c.isDigit then
      let ds := cs1.takeWhile Char.isDigit
      let (gs, cs3) := matchCommaGroups (cs1.dropWhile Char.isDigit)
      let (fs, cs4) := matchFrac cs3
      some (sign ++ ds ++ gs ++ fs, cs4)
    else none
  | [] => none

/-- Match of the number regex of extractNumerics (App.js line 231:
optional minus sign, digits, optional comma-separated thousands groups,
optional fractional part) anchored at the head of the input; returns the
matched characters and the rest, or none when there is no match here.
Since everything after the leading digit run is optional, the regex
engine never needs to backtrack, so the greedy scan below is exact. -/
def matchNumAt (cs : List Char) : Option (List Char × List Char) :=
  match cs with
  | '-' :: rest => matchNumCore ['-'] rest
  | _ => matchNumCore [] cs

/-- Global regex scan: repeatedly try to match at the current position,
advancing one character on failure (String.prototype.match with the g
flag).  Every successful match is non-empty, so fuel equal to the input
length suffices; it is spent one unit per emitted match or skipped
character. -/
def scanNumsAux : Nat → List Char → List (List Char)
  | 0, _ => []
  | _ + 1, [] => []
  | fuel + 1, c :: rest =>
    match matchNumAt (c :: rest) with
    | some (m, r) => m :: scanNumsAux fuel r
    | none => scanNumsAux fuel rest

/-- All matches of the number regex over the input, left to right. -/
def scanNums (cs : List Char) : List (List Char) :=
  scanNumsAux cs.length cs

/-- Array.prototype.join with a newline separator. -/
def joinNewline : List (List Char) → List Char
  | [] => []
  | [l] => l
  | l :: l2 :: rs => l ++ '\n' :: joinNewline (l2 :: rs)

/-- extractNumerics (App.js lines 230-234): match all decimal numbers,
strip the commas from each match, join the results with newlines. -/
def extractNumerics (text : String) : String :=
  String.mk (joinNewline ((scanNums text.toList).map (fun m => m.filter (fun c => c != ','))))

/-- String.prototype.split on a single separator character, accumulator
form: acc holds the reversed characters of the current field. -/
def splitOnCharAux (sep : Char) : List Char → List Char → List (List Char)
  | [], acc => [acc.reverse]
  | c :: rest, acc =>
    if c = sep then acc.reverse :: splitOnCharAux sep rest []
    else splitOnCharAux sep rest (c :: acc)

/-- String.prototype.split on a single separator character; splitting the
empty string yields one empty field, as in JavaScript. -/
def splitOnChar (sep : Char) (cs : List Char) : List (List Char) :=
  splitOnCharAux sep cs []

/-- text.split of a newline followed by the non-blank filter
(App.js lines 238-239). -/
def numericLines (text : String) : List (List Char) :=
  (splitOnChar '\n' text.toList).filter (fun l => jsTrim l != [])

/-- Parsing of one line in parseNumericComparison (App.js lines 246-251):
split on the equals sign, trim the first two fields, keep them when both
are non-empty (JavaScript truthiness: a missing or empty field is falsy).
Any third and later fields of the split are discarded by the
destructuring assignment in the source. -/
def parseLine (l : List Char) : Option (String × String) :=
  match splitOnChar '=' l with
  | [] => none
  | [_] => none
  | a :: b :: _ =>
    let varName := String.mk (jsTrim a)
    let value := String.mk (jsTrim b)
    if varName != "" && value != "" then some (varName, value) else none

/-- Map.prototype.set on an insertion-ordered association list: an
existing key keeps its position and gets the new value, a new key is
appended. -/
def mapSet (m : List (String × String)) (k v : String) : List (String × String) :=
  if m.any (fun p => p.1 == k) then
    m.map (fun p => if p.1 == k then (k, v) else p)
  else m ++ [(k, v)]

/-- Map.prototype.get as an Option. -/
def mapGet (m : List (String × String)) (k : String) : Option String :=
  (m.find? (fun p => p.1 == k)).map (fun p => p.2)

/-- One iteration of the line-parsing forEach (App.js lines 246-251):
a parseable line updates the map, any other line leaves it unchanged. -/
def numericStep (m : List (String × String)) (l : List Char) : List (String × String) :=
  match parseLine l with
  | some (k, v) => mapSet m k v
  | none => m

/-- Building oldMap or newMap (App.js lines 246-259): fold the parsed
lines into the map; the last occurrence of a key wins. -/
def buildNumericMap (lines : List (List Char)) : List (String × String) :=
  lines.foldl numericStep []

/-- Helper for dedupFirst: keep a key exactly when it has not been seen
earlier in the list. -/
def dedupFirstAux (seen : List String) : List String → List String
  | [] => []
  | k :: rest =>
    if seen.contains k then dedupFirstAux seen rest
    else k :: dedupFirstAux (seen ++ [k]) rest

/-- Deduplication keeping the first occurrence, as the Set constructor
does on the concatenated key lists (App.js line 262). -/
def dedupFirst (keys : List String) : List String :=
  dedupFirstAux [] keys

/-- The union of the key sets of the two maps in insertion order
(App.js line 262). -/
def allVariables (oldMap newMap : List (String × String)) : List String :=
  dedupFirst (oldMap.map (fun p => p.1) ++ newMap.map (fun p => p.1))

/-- JavaScript expression map.get(variable) || the string 0: a missing
key and an empty string both default (App.js lines 267-268); stored
values are never empty, so this is the plain default for missing keys. -/
def orZero : Option String → String
  | some v => if v != "" then v else "0"
  | none => "0"

/-- One reported numeric difference (App.js lines 272-277; the constant
type field of the source object is omitted). -/
structure NumericChange where
  category : String
  oldValue : String
  newValue : String
deriving DecidableEq, Repr

/-- The value carried by the last line among lines that parses to the
key k, if any: later lines take precedence.  This is the specification
of last-occurrence-wins, proved below to characterise buildNumericMap. -/
def lastParsedValue (lines : List (List Char)) (k : String) : Option String :=
  match lines with
  | [] => none
  | l :: rest =>
    match lastParsedValue rest k with
    | some v => some v
    | none =>
      match parseLine l with
      | some (k0, v0) => if k0 == k then some v0 else none
      | none => none

/-- parseNumericComparison (App.js lines 237-282): build both maps, walk
the union of the keys, emit a change exactly when the defaulted values
differ. -/
def parseNumericComparison (oldText newText sectionTitle : String) : List NumericChange :=
  let oldMap := buildNumericMap (numericLines oldText)
  let newMap := buildNumericMap (numericLines newText)
  (allVariables oldMap newMap).filterMap
    (fun varName =>
      let oldValue := orZero (mapGet oldMap varName)
      let newValue := orZero (mapGet newMap varName)
      if oldValue != newValue then
        some { category := varName, oldValue := oldValue, newValue := newValue }
      else none)

/-! ## Compare driver and export row builder (App.js lines 284-375) -/

/-- One diff part of the external diff library: a value and the
added/removed flags (both false means unchanged). -/
structure DiffPart where
  value : String
  added : Bool
  removed : Bool
deriving DecidableEq, Repr

/-- One entry of comparisonResult (App.js lines 305 and 312): either a
numeric result or a textual one. -/
inductive ResultSection where
  | numeric (title : String) (numericChanges : List NumericChange)
  | textual (title : String) (changes : List DiffPart)
deriving DecidableEq, Repr

/-- The body of the forEach over combinedSections in handleCompare
(App.js lines 289-315): skip unselected titles, look the title up on each
side with the empty string as default, then either compare numerically
(via extractNumerics and parseNumericComparison) or textually (via the
external line differ), pushing a result only when there is at least one
change. -/
def compareStep (onlyNumeric : Bool) (selectedSections : String → Bool)
    (oldPdfSections newPdfSections : List ExtractedSection)
    (diffLines : String → String → List DiffPart)
    (results : List ResultSection) (title : String) : List ResultSection :=
  if !selectedSections title then results
  else
    let oldText :=
      match oldPdfSections.find? (fun s => s.title == title) with
      | some s => s.text
      | none => ""
    let newText :=
      match newPdfSections.find? (fun s => s.title == title) with
      | some s => s.text
      | none => ""
    if onlyNumeric then
      let numericComparison :=
        parseNumericComparison (extractNumerics oldText) (extractNumerics newText) title
      if numericComparison.length > 0 then
        results ++ [ResultSection.numeric title numericComparison]
      else results
    else
      let changes := (diffLines (jsTrimS oldText) (jsTrimS newText)).filter
        (fun part => part.added || part.removed)
      if changes.length > 0 then results ++ [ResultSection.textual title changes]
      else results

/-- handleCompare (App.js lines 284-319).  The external line differ
(diff.diffLines with its options) is the capability diffLines. -/
def handleCompare (onlyNumeric : Bool) (combinedSections : List String)
    (selectedSections : String → Bool)
    (oldPdfSections newPdfSections : List ExtractedSection)
    (diffLines : String → String → List DiffPart) : List ResultSection :=
  combinedSections.foldl
    (compareStep onlyNumeric selectedSections oldPdfSections newPdfSections diffLines) []

/-- One export row (App.js lines 327-333 and 342-347); the category
column is present only on numeric rows. -/
structure ExportRow where
  sectionTitle : String
  category : Option String
  oldValue : String
  newValue : String
  differenceType : String
deriving DecidableEq, Repr

/-- The while loop of handleExport over one section's textual changes
(App.js lines 337-363), with fuel mirroring the loop counter: the index
advances by one or two per iteration, so fuel equal to the list length
never runs out.  The loop pairs an immediately following added part with
a removed part, otherwise emits one-sided rows; the push at line 362 is
unconditional, so a part with neither flag still emits a row with empty
old and new values. -/
def buildTextRowsAux (title differenceType : String) : Nat → List DiffPart → List ExportRow
  | 0, _ => []
  | _ + 1, [] => []
  | fuel + 1, current :: rest =>
    if current.removed then
      match rest with
      | next :: rest2 =>
        if next.added then
          { sectionTitle := title, category := none, oldValue := jsTrimS current.value,
            newValue := jsTrimS next.value, differenceType := differenceType }
            :: buildTextRowsAux title differenceType fuel rest2
        else
          { sectionTitle := title, category := none, oldValue := jsTrimS current.value,
            newValue := "", differenceType := differenceType }
            :: buildTextRowsAux title differenceType fuel rest
      | [] =>
        [{ sectionTitle := title, category := none, oldValue := jsTrimS current.value,
           newValue := "", differenceType := differenceType }]
    else if current.added then
      { sectionTitle := title, category := none, oldValue := "",
        newValue := jsTrimS current.value, differenceType := differenceType }
        :: buildTextRowsAux title differenceType fuel rest
    else
      { sectionTitle := title, category := none, oldValue := "", newValue := "",
        differenceType := differenceType }
        :: buildTextRowsAux title differenceType fuel rest

/-- The export row walk over one section's textual diff stream. -/
def buildTextRows (title differenceType : String) (changes : List DiffPart) : List ExportRow :=
  buildTextRowsAux title differenceType changes.length changes

/-- The exportData accumulation of handleExport (App.js lines 322-365):
numeric sections emit one row per numeric change, textual sections go
through the pairing walk. -/
def buildExportData (onlyNumeric : Bool) (comparisonResult : List ResultSection) : List ExportRow :=
  comparisonResult.flatMap
    (fun r =>
      match r with
      | ResultSection.numeric title numericChanges =>
        numericChanges.map
          (fun change =>
            { sectionTitle := title, category := some change.category,
              oldValue := change.oldValue, newValue := change.newValue,
              differenceType := "Numeric" })
      | ResultSection.textual title changes =>
        buildTextRows title (if onlyNumeric then "Numeric" else "Textual") changes)

/-- The observable outcome of handleExport: either the spreadsheet
capability is invoked with a file name, a sheet name and the rows, or the
empty set is reported through the error message state. -/
inductive ExportAction where
  | writeFile (fileName sheetName : String) (rows : List ExportRow)
  | reportError (message : String)
deriving DecidableEq, Repr

/-- handleExport (App.js lines 321-375): build the rows; invoke the
spreadsheet writer only when there is at least one row, otherwise set the
error message.  No other state is touched on the empty branch. -/
def handleExport (onlyNumeric : Bool) (comparisonResult : List ResultSection) : ExportAction :=
  let exportData := buildExportData onlyNumeric comparisonResult
  if exportData.length > 0 then
    ExportAction.writeFile "Rate_Comparison_Report.xlsx" "Differences" exportData
  else ExportAction.reportError "No differences to export."

/-! ## Theorems -/

/-- Claim C1 (code_bug evaluation): for an outline node with a non-empty
title whose destination cannot be resolved, the emitted section carries
hasValidPage = true, not false as the specification requires, because the
page estimate at App.js line 66 overwrites pageNum before hasValidPage is
computed from it at line 75. -/
theorem c1_code_marks_estimated_section_valid :
    processList (fun _ => none) [OutlineNode.mk "A" (some 0) []] 0 [] =
      [{ title := "A", startPage := 1, level := some 0, hasValidPage := true }] ∧
    (processList (fun _ => none) [OutlineNode.mk "A" (some 0) []] 0 []).map
      (fun s => s.hasValidPage) = [true] := by
  exact ⟨rfl, rfl⟩

/-- Claim C10: whenever the built export row set is empty, handleExport
reports the informational message instead of invoking the spreadsheet
writer; no exception is thrown and no other state is touched (the model
returns the reported action as the only effect). -/
theorem c10_empty_export_reports (onlyNumeric : Bool)
    (comparisonResult : List ResultSection)
    (h : buildExportData onlyNumeric comparisonResult = []) :
    handleExport onlyNumeric comparisonResult =
      ExportAction.reportError "No differences to export." := by
  unfold handleExport
  simp [h]

/-- Witness for claim C10 at a concrete comparison result whose textual
section has no changes, hence zero export rows. -/
theorem c10_empty_export_reports_witness :
    handleExport false [ResultSection.textual "S" []] =
      ExportAction.reportError "No differences to export." :=
  c10_empty_export_reports false [ResultSection.textual "S" []] (by decide)

/-- Claim C9: a null or empty outline, or an outline whose traversal
yields zero titled sections, makes parsePdf fall back to one section per
page, titled "Page n" with startPage n and hasValidPage true for n in
1..P, and record PAGES mode. -/
theorem c9_fallback_segmentation (resolve : Nat → Option Nat)
    (outline : Option (List OutlineNode)) (numPages : Nat)
    (h : outline = none ∨ processList resolve (outline.getD []) 0 [] = []) :
    parsePdfSections resolve outline numPages =
      ((List.range' 1 numPages).map
        (fun n => { title := "Page " ++ toString n, startPage := n, level := none,
                    hasValidPage := true }),
       ParseMode.PAGES) := by
  unfold parsePdfSections fallbackSections
  rcases h with h | h
  · subst h
    simp [pageSection]
  · cases outline with
    | none => simp [pageSection]
    | some items =>
      simp only [Option.getD] at h
      by_cases hlen : items.length > 0 <;> simp [hlen, h, pageSection]

/-- Witness for claim C9: the empty outline with page count 3 yields
exactly the three page sections and PAGES mode. -/
theorem c9_fallback_segmentation_witness :
    parsePdfSections (fun _ => none) (some []) 3 =
      ([{ title := "Page 1", startPage := 1, level := none, hasValidPage := true },
        { title := "Page 2", startPage := 2, level := none, hasValidPage := true },
        { title := "Page 3", startPage := 3, level := none, hasValidPage := true }],
       ParseMode.PAGES) := by
  have h := c9_fallback_segmentation (fun _ => none) (some []) 3 (Or.inr rfl)
  exact h.trans (by decide)

/-- Counterexample to claim C8 as stated: an unchanged diff part is not
skipped by the export walk; the unconditional push at App.js line 362
emits a row with empty old and new values for it. -/
theorem c8_unchanged_part_counterexample :
    buildTextRows "S" "Textual" [{ value := "X", added := false, removed := false }] =
      [{ sectionTitle := "S", category := none, oldValue := "", newValue := "",
         differenceType := "Textual" }] ∧
    buildTextRows "S" "Textual" [{ value := "X", added := false, removed := false }] ≠ [] := by
  constructor
  · rfl
  · decide

/-- The export walk with empty input returns no rows for any fuel. -/
theorem buildTextRowsAux_nil (title dt : String) (fuel : Nat) :
    buildTextRowsAux title dt fuel [] = [] := by
  cases fuel <;> rfl

/-- The export walk is insensitive to the exact fuel as long as the fuel
dominates the number of remaining parts: the loop index advances at least
one per iteration. -/
theorem buildTextRowsAux_fuel (title dt : String) :
    ∀ (fuel1 : Nat) (parts : List DiffPart) (fuel2 : Nat),
      parts.length ≤ fuel1 → parts.length ≤ fuel2 →
      buildTextRowsAux title dt fuel1 parts = buildTextRowsAux title dt fuel2 parts := by
  intro fuel1
  induction fuel1 with
  | zero =>
    intro parts fuel2 h1 _
    have hp : parts = [] := List.eq_nil_of_length_eq_zero (Nat.le_zero.mp h1)
    subst hp
    rw [buildTextRowsAux_nil, buildTextRowsAux_nil]
  | succ f ih =>
    intro parts fuel2 h1 h2
    cases parts with
    | nil => rw [buildTextRowsAux_nil, buildTextRowsAux_nil]
    | cons current rest =>
      cases fuel2 with
      | zero => simp at h2
      | succ g =>
        cases rest with
        | nil =>
          by_cases hr : current.removed <;> by_cases ha : current.added <;>
            simp [buildTextRowsAux, hr, ha, buildTextRowsAux_nil]
        | cons next rest2 =>
          by_cases hr : current.removed
          · by_cases ha : next.added
            · simp only [buildTextRowsAux, hr, ha, if_true, List.cons.injEq, true_and]
              exact ih rest2 g
                (by simp only [List.length_cons] at h1 ⊢; omega)
                (by simp only [List.length_cons] at h2 ⊢; omega)
            · simp [buildTextRowsAux, hr, ha]
              exact ih (next :: rest2) g
                (by simp only [List.length_cons] at h1 ⊢; omega)
                (by simp only [List.length_cons] at h2 ⊢; omega)
          · by_cases ha : current.added
            all_goals
              simp [buildTextRowsAux, hr, ha]
              exact ih (next :: rest2) g
                (by simp only [List.length_cons] at h1 ⊢; omega)
                (by simp only [List.length_cons] at h2 ⊢; omega)

/-- Claim C8 (amended): the export walk pairs an immediately adjacent
removed part followed by an added part into one row with both values,
turns a removed part not followed by an added part into an old-only row
and an added part not preceded by a pending removed part into a new-only
row; an unchanged part is not skipped but emits a row with empty old and
new values.  The concrete stream removed A, added B, removed C yields
exactly the two claimed rows. -/
theorem c8_pairing_walk :
    (buildTextRows "S" "Textual"
        [{ value := "A", added := false, removed := true },
         { value := "B", added := true, removed := false },
         { value := "C", added := false, removed := true }] =
      [{ sectionTitle := "S", category := none, oldValue := "A", newValue := "B",
         differenceType := "Textual" },
       { sectionTitle := "S", category := none, oldValue := "C", newValue := "",
         differenceType := "Textual" }]) ∧
    (∀ (title dt v w : String) (rest : List DiffPart),
      buildTextRows title dt
          ({ value := v, added := false, removed := true } ::
            { value := w, added := true, removed := false } :: rest) =
        { sectionTitle := title, category := none, oldValue := jsTrimS v,
          newValue := jsTrimS w, differenceType := dt } :: buildTextRows title dt rest) ∧
    (∀ (title dt v : String) (next : DiffPart) (rest : List DiffPart),
      next.added = false →
      buildTextRows title dt ({ value := v, added := false, removed := true } :: next :: rest) =
        { sectionTitle := title, category := none, oldValue := jsTrimS v,
          newValue := "", differenceType := dt } :: buildTextRows title dt (next :: rest)) ∧
    (∀ (title dt v : String),
      buildTextRows title dt [{ value := v, added := false, removed := true }] =
        [{ sectionTitle := title, category := none, oldValue := jsTrimS v,
           newValue := "", differenceType := dt }]) ∧
    (∀ (title dt v : String) (rest : List DiffPart),
      buildTextRows title dt ({ value := v, added := true, removed := false } :: rest) =
        { sectionTitle := title, category := none, oldValue := "",
          newValue := jsTrimS v, differenceType := dt } :: buildTextRows title dt rest) ∧
    (∀ (title dt v : String) (rest : List DiffPart),
      buildTextRows title dt ({ value := v, added := false, removed := false } :: rest) =
        { sectionTitle := title, category := none, oldValue := "",
          newValue := "", differenceType := dt } :: buildTextRows title dt rest) := by
  refine ⟨by decide, ?_, ?_, ?_, ?_, ?_⟩
  · intro title dt v w rest
    exact congrArg (List.cons _)
      (buildTextRowsAux_fuel title dt (rest.length + 1) rest rest.length
        (Nat.le_succ _) (Nat.le_refl _))
  · intro title dt v next rest h
    simp [buildTextRows, buildTextRowsAux, h]
  · intro title dt v
    rfl
  · intro title dt v rest
    rfl
  · intro title dt v rest
    rfl

/-- Witness for claim C8 (amended), discharging the not-followed-by-added
hypothesis at a concrete unchanged successor. -/
theorem c8_pairing_walk_witness :
    buildTextRows "S" "Textual"
        [{ value := "A", added := false, removed := true },
         { value := "X", added := false, removed := false }] =
      { sectionTitle := "S", category := none, oldValue := "A", newValue := "",
        differenceType := "Textual" } ::
        buildTextRows "S" "Textual" [{ value := "X", added := false, removed := false }] := by
  have h := c8_pairing_walk.2.2.1 "S" "Textual" "A"
    { value := "X", added := false, removed := false } [] rfl
  exact h.trans (by decide)

/-- Counterexample to claim C6 as stated: the source splits the line on
every equals sign and keeps only the first two fields, so the line
a = b = c maps key a to value b, not to the remainder b = c. -/
theorem c6_value_counterexample :
    parseNumericComparison "" "a = b = c" "S" =
      [{ category := "a", oldValue := "0", newValue := "b" }] ∧
    parseNumericComparison "" "a = b = c" "S" ≠
      [{ category := "a", oldValue := "0", newValue := "b = c" }] := by
  constructor
  · rfl
  · decide

/-- Counterexample to claim C5 as stated: a section spanning pages 1 and 2
with page texts a and b extracts to ab, while the space-joined text the
claim describes would be a b. -/
theorem c5_space_join_counterexample :
    (extractLoop (fun j => if j = 1 then "a" else "b") 2
        [{ title := "A", startPage := 1, level := some 0, hasValidPage := true }]).map
      (fun e => e.text) = ["ab"] ∧
    (extractLoopSpaceJoined (fun j => if j = 1 then "a" else "b") 2
        [{ title := "A", startPage := 1, level := some 0, hasValidPage := true }]).map
      (fun e => e.text) = ["a b"] ∧
    extractLoop (fun j => if j = 1 then "a" else "b") 2
        [{ title := "A", startPage := 1, level := some 0, hasValidPage := true }] ≠
      extractLoopSpaceJoined (fun j => if j = 1 then "a" else "b") 2
        [{ title := "A", startPage := 1, level := some 0, hasValidPage := true }] := by
  refine ⟨rfl, rfl, by decide⟩

/-- Counterexample to claim C4 as stated: an outline resolving its only
section to page 2 of a 3-page document makes the extractor read pages 2
and 3 only; page 1 is covered by no section range. -/
theorem c4_coverage_counterexample :
    pagesRead 3 (parsePdfSections (fun _ => some 1)
        (some [OutlineNode.mk "A" (some 0) []]) 3).1 = [2, 3] ∧
    (1 : Nat) ∉ pagesRead 3 (parsePdfSections (fun _ => some 1)
        (some [OutlineNode.mk "A" (some 0) []]) 3).1 := by
  constructor
  · rfl
  · decide

/-- Lookup in an association list, one cons step. -/
theorem mapGet_cons (p : String × String) (m : List (String × String)) (k : String) :
    mapGet (p :: m) k = if p.1 = k then some p.2 else mapGet m k := by
  unfold mapGet
  rw [List.find?_cons]
  cases h : (p.1 == k) with
  | false =>
    have h' : ¬p.1 = k := by simpa using h
    simp [h']
  | true =>
    have h' : p.1 = k := by simpa using h
    simp [h']

/-- Lookup after replacing every entry keyed k0 by (k0, v): the k0 value
becomes v when some entry carried k0, other keys are untouched. -/
theorem mapGet_map_replace (m : List (String × String)) (k0 v k : String) :
    mapGet (m.map (fun p => if p.1 = k0 then (k0, v) else p)) k =
      if k = k0 then (mapGet m k0).map (fun _ => v) else mapGet m k := by
  induction m with
  | nil => simp [mapGet]
  | cons p m ih =>
    simp only [List.map_cons]
    by_cases h1 : p.1 = k0
    · by_cases h2 : k = k0
      · simp [mapGet_cons, h1, h2, ih]
      · have hk0k : ¬k0 = k := fun hh => h2 hh.symm
        have hpk : ¬p.1 = k := by rw [h1]; exact hk0k
        simp [mapGet_cons, h1, h2, hk0k, hpk, ih]
    · by_cases h2 : k = k0
      · have hpk : ¬p.1 = k := fun hh => h1 (hh.trans h2)
        subst h2
        simp [mapGet_cons, h1, hpk, ih]
      · simp [mapGet_cons, h1, h2, ih]

/-- A key absent from every entry looks up to none. -/
theorem mapGet_eq_none_of_any_false (m : List (String × String)) (k : String)
    (h : m.any (fun p => p.1 == k) = false) : mapGet m k = none := by
  unfold mapGet
  rw [Option.map_eq_none', List.find?_eq_none]
  exact List.any_eq_false.mp h

/-- A key present in some entry looks up to some value. -/
theorem mapGet_isSome_of_any_true (m : List (String × String)) (k : String)
    (h : m.any (fun p => p.1 == k) = true) : (mapGet m k).isSome = true := by
  obtain ⟨p0, hmem, hb⟩ := List.any_eq_true.mp h
  unfold mapGet
  cases hf : m.find? (fun p => p.1 == k) with
  | some q => simp
  | none =>
    rw [List.find?_eq_none] at hf
    exact absurd hb (hf p0 hmem)

/-- Lookup over an appended singleton. -/
theorem mapGet_append_single (m : List (String × String)) (k0 v k : String) :
    mapGet (m ++ [(k0, v)]) k =
      match mapGet m k with
      | some w => some w
      | none => if k0 = k then some v else none := by
  induction m with
  | nil =>
    rw [List.nil_append, mapGet_cons]
    by_cases h : k0 = k <;> simp [h, mapGet]
  | cons p m ih =>
    rw [List.cons_append, mapGet_cons, mapGet_cons]
    by_cases h : p.1 = k
    · simp [h]
    · simp [h, ih]

/-- Map.prototype.set followed by Map.prototype.get: the written key
reads back the written value, other keys are untouched. -/
theorem mapGet_mapSet (m : List (String × String)) (k0 v k : String) :
    mapGet (mapSet m k0 v) k = if k = k0 then some v else mapGet m k := by
  unfold mapSet
  by_cases hany : m.any (fun p => p.1 == k0) = true
  · rw [if_pos hany]
    simp only [beq_iff_eq]
    rw [mapGet_map_replace]
    by_cases h2 : k = k0
    · subst h2
      have hs := mapGet_isSome_of_any_true m k hany
      obtain ⟨w, hw⟩ := Option.isSome_iff_exists.mp hs
      simp [hw]
    · simp [h2]
  · rw [if_neg hany]
    rw [mapGet_append_single]
    have hfalse : m.any (fun p => p.1 == k0) = false := by
      cases h : m.any (fun p => p.1 == k0)
      · rfl
      · exact absurd h hany
    have hn := mapGet_eq_none_of_any_false m k0 hfalse
    by_cases h2 : k = k0
    · subst h2
      simp [hn]
    · have hk0k : ¬k0 = k := fun hh => h2 hh.symm
      cases hm : mapGet m k <;> simp [hm, h2, hk0k]

/-- Folding lines into a map from any starting map: the lookup of k is
the last parsed value for k among the lines, else the starting lookup. -/
theorem mapGet_foldl_numericStep :
    ∀ (lines : List (List Char)) (m : List (String × String)) (k : String),
      mapGet (lines.foldl numericStep m) k =
        match lastParsedValue lines k with
        | some v => some v
        | none => mapGet m k := by
  intro lines
  induction lines with
  | nil => intro m k; rfl
  | cons l rest ih =>
    intro m k
    simp only [List.foldl_cons]
    rw [ih]
    cases hL : lastParsedValue rest k with
    | some v => simp [lastParsedValue, hL]
    | none =>
      simp only [lastParsedValue, hL]
      unfold numericStep
      cases hp : parseLine l with
      | none => simp
      | some kv =>
        obtain ⟨k0, v0⟩ := kv
        simp only
        rw [mapGet_mapSet]
        by_cases hk : k = k0
        · have e : (k0 == k) = true := by simp [hk.symm]
          simp [hk, e]
        · have hk0k : ¬k0 = k := fun hh => hk hh.symm
          have e : (k0 == k) = false := by simp [hk0k]
          simp [hk, e]

/-- Claim C6 (amended): the key of a parsed line is the trimmed text
before the first equals sign and the value is the trimmed text between
the first and the second equals sign (the split keeps only the first two
fields, so in a = b = c the key a maps to b, not to b = c); on duplicate
keys the last occurrence wins; a line without a parseable shape is
silently skipped and leaves the map unchanged. -/
theorem c6_first_equals_split_last_wins :
    (parseNumericComparison "" "a = b = c" "S" =
      [{ category := "a", oldValue := "0", newValue := "b" }]) ∧
    (∀ (lines : List (List Char)) (k : String),
      mapGet (buildNumericMap lines) k = lastParsedValue lines k) ∧
    (∀ (pre post : List (List Char)) (l : List Char),
      parseLine l = none →
      buildNumericMap (pre ++ l :: post) = buildNumericMap (pre ++ post)) := by
  refine ⟨rfl, ?_, ?_⟩
  · intro lines k
    unfold buildNumericMap
    rw [mapGet_foldl_numericStep]
    cases hL : lastParsedValue lines k <;> simp [mapGet]
  · intro pre post l h
    unfold buildNumericMap
    rw [List.foldl_append, List.foldl_append, List.foldl_cons]
    have : numericStep (pre.foldl numericStep []) l = pre.foldl numericStep [] := by
      unfold numericStep
      rw [h]
    rw [this]

/-- Witness for claim C6 (amended), discharging the unparseable-line
hypothesis at a concrete line with no equals sign. -/
theorem c6_first_equals_split_last_wins_witness :
    buildNumericMap [['x'], ['a', '=', 'b']] = buildNumericMap [['a', '=', 'b']] :=
  c6_first_equals_split_last_wins.2.2 [] [['a', '=', 'b']] ['x'] (by decide)

/-- Claim C7: the key sets are unioned, a side missing a key defaults to
the string 0, and a change is emitted exactly when the two defaulted
values differ; the concrete rate/fee instance yields exactly one change
for fee from 0 to 5 and none for rate. -/
theorem c7_key_union_default_zero :
    (parseNumericComparison "rate = 10" "rate = 10\nfee = 5" "S" =
      [{ category := "fee", oldValue := "0", newValue := "5" }]) ∧
    (∀ (oldText newText sectionTitle k : String),
      ({ category := k,
         oldValue := orZero (mapGet (buildNumericMap (numericLines oldText)) k),
         newValue := orZero (mapGet (buildNumericMap (numericLines newText)) k) } :
            NumericChange) ∈
          parseNumericComparison oldText newText sectionTitle ↔
        (k ∈ allVariables (buildNumericMap (numericLines oldText))
              (buildNumericMap (numericLines newText)) ∧
          orZero (mapGet (buildNumericMap (numericLines oldText)) k) ≠
            orZero (mapGet (buildNumericMap (numericLines newText)) k))) ∧
    (∀ (oldText newText sectionTitle : String) (c : NumericChange),
      c ∈ parseNumericComparison oldText newText sectionTitle →
        c.oldValue = orZero (mapGet (buildNumericMap (numericLines oldText)) c.category) ∧
        c.newValue = orZero (mapGet (buildNumericMap (numericLines newText)) c.category)) := by
  refine ⟨rfl, ?_, ?_⟩
  · intro oldText newText sectionTitle k
    simp only [parseNumericComparison, List.mem_filterMap]
    constructor
    · rintro ⟨a, ha, heq⟩
      split at heq
      · rename_i hne
        have hcat := congrArg NumericChange.category (Option.some.inj heq)
        simp only at hcat
        subst hcat
        exact ⟨ha, by simpa [bne_iff_ne] using hne⟩
      · exact absurd heq (by simp)
    · rintro ⟨hk, hne⟩
      exact ⟨k, hk, by simp [bne_iff_ne, hne]⟩
  · intro oldText newText sectionTitle c hc
    simp only [parseNumericComparison, List.mem_filterMap] at hc
    obtain ⟨a, _, heq⟩ := hc
    split at heq
    · have h := Option.some.inj heq
      subst h
      exact ⟨rfl, rfl⟩
    · exact absurd heq (by simp)

/-- Witness for claim C7 at the concrete rate/fee texts: the fee change
with both defaulted lookups is a member of the output. -/
theorem c7_key_union_default_zero_witness :
    ({ category := "fee",
       oldValue := orZero (mapGet (buildNumericMap (numericLines "rate = 10")) "fee"),
       newValue := orZero (mapGet (buildNumericMap (numericLines "rate = 10\nfee = 5")) "fee") } :
        NumericChange) ∈
      parseNumericComparison "rate = 10" "rate = 10\nfee = 5" "S" :=
  (c7_key_union_default_zero.2.1 "rate = 10" "rate = 10\nfee = 5" "S" "fee").mpr
    ⟨by decide, by decide⟩

/-- Characters of the thousands-group match are digits or commas. -/
theorem matchCommaGroups_chars (cs : List Char) :
    ∀ c ∈ (matchCommaGroups cs).1, c.isDigit = true ∨ c = ',' := by
  induction cs using matchCommaGroups.induct with
  | case1 d1 d2 d3 rest hd g r heq ih =>
    intro c hc
    rw [matchCommaGroups, if_pos hd, heq] at hc
    have h' := hd
    simp only [Bool.and_eq_true] at h'
    obtain ⟨⟨h1, h2⟩, h3⟩ := h'
    rw [heq] at ih
    simp only [List.mem_cons] at hc
    rcases hc with rfl | rfl | rfl | rfl | h
    · right; rfl
    · left; exact h1
    · left; exact h2
    · left; exact h3
    · exact ih c h
  | case2 d1 d2 d3 rest hd =>
    intro c hc
    rw [matchCommaGroups, if_neg hd] at hc
    simp at hc
  | case3 cs h =>
    intro c hc
    rw [matchCommaGroups.eq_def] at hc
    split at hc
    · rename_i d1 d2 d3 rest
      exact absurd rfl (h d1 d2 d3 rest)
    · simp at hc

/-- Characters of the fractional-part match are digits or the dot. -/
theorem matchFrac_chars (cs : List Char) :
    ∀ c ∈ (matchFrac cs).1, c.isDigit = true ∨ c = '.' := by
  intro c hc
  rw [matchFrac.eq_def] at hc
  split at hc
  · split at hc
    · simp only [List.mem_cons] at hc
      rcases hc with rfl | h
      · right; rfl
      · left; exact List.mem_takeWhile_imp h
    · simp at hc
  · simp at hc

/-- Characters of the core number match are digits, signs, commas or
dots, given that the sign part consists of minus signs. -/
theorem matchNumCore_chars (sign cs1 m r : List Char)
    (hsign : ∀ c ∈ sign, c = '-')
    (h : matchNumCore sign cs1 = some (m, r)) :
    ∀ c ∈ m, c.isDigit = true ∨ c = '-' ∨ c = ',' ∨ c = '.' := by
  intro c hc
  rw [matchNumCore.eq_def] at h
  split at h
  · rename_i c0 rest0
    split at h
    · rcases hgs : matchCommaGroups ((c0 :: rest0).dropWhile Char.isDigit) with ⟨gs, cs3⟩
      rw [hgs] at h
      dsimp only at h
      rcases hfs : matchFrac cs3 with ⟨fs, cs4⟩
      rw [hfs] at h
      dsimp only at h
      have hm := congrArg Prod.fst (Option.some.inj h)
      simp only at hm
      rw [← hm] at hc
      simp only [List.mem_append] at hc
      rcases hc with ((hs | ht) | hg2) | hf
      · right; left; exact hsign c hs
      · left; exact List.mem_takeWhile_imp ht
      · rcases matchCommaGroups_chars _ c (by rw [hgs]; exact hg2) with h' | h'
        · left; exact h'
        · right; right; left; exact h'
      · rcases matchFrac_chars cs3 c (by rw [hfs]; exact hf) with h' | h'
        · left; exact h'
        · right; right; right; exact h'
    · exact absurd h (by simp)
  · exact absurd h (by simp)

/-- Characters of a number-regex match are digits, signs, commas or
dots. -/
theorem matchNumAt_chars (cs m r : List Char) (h : matchNumAt cs = some (m, r)) :
    ∀ c ∈ m, c.isDigit = true ∨ c = '-' ∨ c = ',' ∨ c = '.' := by
  rw [matchNumAt.eq_def] at h
  split at h
  · exact matchNumCore_chars _ _ _ _ (by intro c hc; simpa using hc) h
  · exact matchNumCore_chars _ _ _ _ (by intro c hc; simp at hc) h

/-- Characters of any emitted match of the global scan are digits,
signs, commas or dots. -/
theorem scanNumsAux_chars :
    ∀ (fuel : Nat) (cs m : List Char), m ∈ scanNumsAux fuel cs →
      ∀ c ∈ m, c.isDigit = true ∨ c = '-' ∨ c = ',' ∨ c = '.' := by
  intro fuel
  induction fuel with
  | zero => intro cs m hm; simp [scanNumsAux] at hm
  | succ f ih =>
    intro cs m hm
    cases cs with
    | nil => simp [scanNumsAux] at hm
    | cons c0 rest =>
      rw [scanNumsAux] at hm
      cases hmn : matchNumAt (c0 :: rest) with
      | some pr =>
        obtain ⟨m0, r⟩ := pr
        rw [hmn] at hm
        simp only [List.mem_cons] at hm
        rcases hm with rfl | hm
        · exact matchNumAt_chars _ _ _ hmn
        · exact ih r m hm
      | none =>
        rw [hmn] at hm
        exact ih rest m hm

/-- A character of a newline join is a newline or comes from one of the
joined lists. -/
theorem joinNewline_chars :
    ∀ (ls : List (List Char)) (c : Char), c ∈ joinNewline ls →
      c = '\n' ∨ ∃ l ∈ ls, c ∈ l := by
  intro ls
  induction ls with
  | nil => intro c hc; simp [joinNewline] at hc
  | cons l rest ih =>
    intro c hc
    cases rest with
    | nil =>
      rw [joinNewline] at hc
      exact Or.inr ⟨l, by simp, hc⟩
    | cons l2 rs =>
      rw [joinNewline] at hc
      simp only [List.mem_append, List.mem_cons] at hc
      rcases hc with hl | rfl | hj
      · exact Or.inr ⟨l, by simp, hl⟩
      · exact Or.inl rfl
      · rcases ih c hj with h | ⟨l', hl', hcl⟩
        · exact Or.inl h
        · exact Or.inr ⟨l', by simp [hl'], hcl⟩

/-- Every character of the extractNumerics output is a digit, a minus
sign, a dot or a newline; in particular no equals sign ever occurs. -/
theorem extractNumerics_chars (t : String) (c : Char)
    (hc : c ∈ (extractNumerics t).toList) :
    c.isDigit = true ∨ c = '-' ∨ c = '.' ∨ c = '\n' := by
  have hc' : c ∈ joinNewline
      ((scanNums t.toList).map (fun m => m.filter (fun x => x != ','))) := hc
  rcases joinNewline_chars _ c hc' with h | ⟨l, hl, hcl⟩
  · right; right; right; exact h
  · simp only [List.mem_map] at hl
    obtain ⟨m, hm, rfl⟩ := hl
    have hcm : c ∈ m := (List.mem_filter.mp hcl).1
    have hne : (c != ',') = true := (List.mem_filter.mp hcl).2
    rcases scanNumsAux_chars _ _ _ hm c hcm with h | h | h | h
    · left; exact h
    · right; left; exact h
    · exfalso; rw [h] at hne; simp at hne
    · right; right; left; exact h

/-- Characters of any field of a split come from the input or the
accumulator. -/
theorem splitOnCharAux_mem (sep : Char) :
    ∀ (cs acc l : List Char), l ∈ splitOnCharAux sep cs acc →
      ∀ c ∈ l, c ∈ cs ∨ c ∈ acc := by
  intro cs
  induction cs with
  | nil =>
    intro acc l hl c hc
    simp only [splitOnCharAux, List.mem_singleton] at hl
    subst hl
    exact Or.inr (List.mem_reverse.mp hc)
  | cons c0 rest ih =>
    intro acc l hl c hc
    rw [splitOnCharAux] at hl
    by_cases h0 : c0 = sep
    · rw [if_pos h0] at hl
      simp only [List.mem_cons] at hl
      rcases hl with rfl | hl
      · exact Or.inr (List.mem_reverse.mp hc)
      · rcases ih [] l hl c hc with h | h
        · exact Or.inl (List.mem_cons_of_mem _ h)
        · simp at h
    · rw [if_neg h0] at hl
      rcases ih (c0 :: acc) l hl c hc with h | h
      · exact Or.inl (List.mem_cons_of_mem _ h)
      · rcases List.mem_cons.mp h with rfl | h
        · exact Or.inl (List.mem_cons_self _ _)
        · exact Or.inr h

/-- Splitting an input free of the separator yields a single field. -/
theorem splitOnCharAux_no_sep (sep : Char) :
    ∀ (cs acc : List Char), sep ∉ cs →
      splitOnCharAux sep cs acc = [acc.reverse ++ cs] := by
  intro cs
  induction cs with
  | nil => intro acc _; simp [splitOnCharAux]
  | cons c0 rest ih =>
    intro acc h
    have h0 : ¬c0 = sep := by
      intro he
      subst he
      exact h (List.mem_cons_self _ _)
    rw [splitOnCharAux, if_neg h0,
      ih (c0 :: acc) (fun hm => h (List.mem_cons_of_mem _ hm))]
    simp

/-- A line with no equals sign is silently skipped by the line parser. -/
theorem parseLine_of_no_equals (l : List Char) (h : '=' ∉ l) : parseLine l = none := by
  unfold parseLine
  have hsplit : splitOnChar '=' l = [l] := by
    unfold splitOnChar
    rw [splitOnCharAux_no_sep '=' l [] h]
    simp
  rw [hsplit]

/-- Lines that all fail to parse leave the map fold unchanged. -/
theorem foldl_numericStep_id (lines : List (List Char))
    (h : ∀ l ∈ lines, parseLine l = none) :
    ∀ m, lines.foldl numericStep m = m := by
  induction lines with
  | nil => intro m; rfl
  | cons l rest ih =>
    intro m
    rw [List.foldl_cons]
    have hstep : numericStep m l = m := by
      unfold numericStep
      rw [h l (by simp)]
    rw [hstep]
    exact ih (fun l' hl' => h l' (List.mem_cons_of_mem _ hl')) m

/-- The structured comparison of two extractNumerics outputs is always
empty: the tokenizer emits no equals sign, so no line parses. -/
theorem parseNumericComparison_extractNumerics (oldText newText sectionTitle : String) :
    parseNumericComparison (extractNumerics oldText) (extractNumerics newText)
      sectionTitle = [] := by
  have key : ∀ (t : String), ∀ l ∈ numericLines (extractNumerics t), parseLine l = none := by
    intro t l hl
    apply parseLine_of_no_equals
    intro hc
    have hl' : l ∈ splitOnChar '\n' (extractNumerics t).toList :=
      List.mem_of_mem_filter hl
    rcases splitOnCharAux_mem '\n' _ [] l hl' '=' hc with hcc | hcc
    · rcases extractNumerics_chars t '=' hcc with h | h | h | h <;>
        exact absurd h (by decide)
    · simp at hcc
  unfold parseNumericComparison buildNumericMap
  rw [foldl_numericStep_id _ (key oldText), foldl_numericStep_id _ (key newText)]
  rfl

/-- One numeric-mode compare step never pushes a result. -/
theorem compareStep_true_id (selectedSections : String → Bool)
    (oldPdfSections newPdfSections : List ExtractedSection)
    (diffLines : String → String → List DiffPart)
    (results : List ResultSection) (title : String) :
    compareStep true selectedSections oldPdfSections newPdfSections diffLines
      results title = results := by
  unfold compareStep
  cases hsel : selectedSections title with
  | false => simp [hsel]
  | true => simp [hsel, parseNumericComparison_extractNumerics]

/-- Claim C2: numeric-only comparison reports no changes for any pair of
input texts; the structured parser on two extractNumerics outputs always
returns the empty list, and handleCompare in numeric mode always returns
an empty result list. -/
theorem c2_numeric_only_reports_no_changes :
    (∀ oldText newText sectionTitle : String,
      parseNumericComparison (extractNumerics oldText) (extractNumerics newText)
        sectionTitle = []) ∧
    (∀ (combinedSections : List String) (selectedSections : String → Bool)
        (oldPdfSections newPdfSections : List ExtractedSection)
        (diffLines : String → String → List DiffPart),
      handleCompare true combinedSections selectedSections oldPdfSections
        newPdfSections diffLines = []) := by
  refine ⟨parseNumericComparison_extractNumerics, ?_⟩
  intro combined sel olds news dl
  unfold handleCompare
  have main : ∀ (l : List String) (acc : List ResultSection),
      l.foldl (compareStep true sel olds news dl) acc = acc := by
    intro l
    induction l with
    | nil => intro acc; rfl
    | cons t rest ih =>
      intro acc
      rw [List.foldl_cons, compareStep_true_id]
      exact ih acc
  exact main combined []

/-- Claim C5 (amended): the i-th extracted section keeps the i-th
section's title, and its text is the concatenation, with no separator, of
pageText over the in-bounds pages from its startPage to its end page (the
next section's startPage minus one, or the page count for the last
section). -/
theorem c5_section_text_concatenates_pages (pageText : Nat → String) (numPages : Nat) :
    ∀ (sections : List Section) (i : Nat),
      (extractLoop pageText numPages sections)[i]? =
        (sections[i]?).map (fun sec =>
          { title := sec.title,
            text := String.join
              (((pageRange sec.startPage
                    (sectionEnd (sections.drop (i + 1)) numPages)).filter
                  (inBounds numPages)).map pageText) }) := by
  intro sections
  induction sections with
  | nil => intro i; simp [extractLoop]
  | cons sec rest ih =>
    intro i
    cases i with
    | zero => simp [extractLoop]
    | succ n =>
      simp only [extractLoop, List.getElem?_cons_succ, List.drop_succ_cons]
      exact ih n

/-- Increasing arithmetic ranges are weakly chained. -/
theorem chain'_le_range' : ∀ (n s : Nat),
    List.Chain' (fun a b : Nat => a ≤ b) (List.range' s n)
  | 0, _ => by simp
  | 1, _ => by simp
  | (n + 2), s => by
    show List.Chain' _ (s :: List.range' (s + 1) (n + 1))
    rw [show List.range' (s + 1) (n + 1) = (s + 1) :: List.range' (s + 2) n from rfl]
    refine List.chain'_cons.mpr ⟨Nat.le_succ s, ?_⟩
    rw [show ((s + 1) :: List.range' (s + 2) n) = List.range' (s + 1) (n + 1) from rfl]
    exact chain'_le_range' (n + 1) (s + 1)

/-- The pages fetched for a non-empty section list whose startPages are
within bounds and weakly sorted form exactly the contiguous range from
the first startPage to the page count. -/
theorem pagesRead_sorted (numPages : Nat) :
    ∀ (sec : Section) (rest : List Section),
      (∀ s ∈ sec :: rest, 1 ≤ s.startPage ∧ s.startPage ≤ numPages) →
      List.Chain' (fun a b => a.startPage ≤ b.startPage) (sec :: rest) →
      pagesRead numPages (sec :: rest) =
        List.range' sec.startPage (numPages + 1 - sec.startPage) := by
  intro sec rest
  induction rest generalizing sec with
  | nil =>
    intro hb _
    obtain ⟨h1, h2⟩ := hb sec (by simp)
    rw [pagesRead, pagesRead, List.append_nil]
    unfold pageRange sectionEnd
    have hn : ((numPages : Int) + 1 - (sec.startPage : Int)).toNat =
        numPages + 1 - sec.startPage := by omega
    rw [hn]
    apply List.filter_eq_self.mpr
    intro j hj
    rw [List.mem_range'_1] at hj
    simp only [inBounds, Bool.and_eq_true, decide_eq_true_eq]
    omega
  | cons nxt rest ih =>
    intro hb hc
    have h1 := hb sec (by simp)
    have h2 := hb nxt (by simp)
    have hle : sec.startPage ≤ nxt.startPage := (List.chain'_cons.mp hc).1
    have hrec := ih nxt (fun s hs => hb s (List.mem_cons_of_mem _ hs))
      (List.chain'_cons.mp hc).2
    rw [pagesRead, hrec]
    have hfirst : (pageRange sec.startPage
        (sectionEnd (nxt :: rest) numPages)).filter (inBounds numPages) =
        List.range' sec.startPage (nxt.startPage - sec.startPage) := by
      unfold pageRange sectionEnd
      have hn : ((nxt.startPage : Int) - 1 + 1 - (sec.startPage : Int)).toNat =
          nxt.startPage - sec.startPage := by omega
      rw [hn]
      apply List.filter_eq_self.mpr
      intro j hj
      rw [List.mem_range'_1] at hj
      simp only [inBounds, Bool.and_eq_true, decide_eq_true_eq]
      omega
    rw [hfirst]
    have happ := List.range'_append sec.startPage (nxt.startPage - sec.startPage)
      (numPages + 1 - nxt.startPage) 1
    rw [show sec.startPage + 1 * (nxt.startPage - sec.startPage) = nxt.startPage by
      omega] at happ
    rw [happ]
    congr 1
    omega

/-- Claim C4 (amended): for a non-empty section list with in-bounds,
weakly sorted startPages, the extractor's page ranges are exactly the
pages from the first section's startPage through the page count, each
read exactly once; hence full coverage of pages 1..P holds exactly when
the first startPage is 1, which the page fallback segmenter always
satisfies, while outline-derived lists may start later and leave earlier
pages unread. -/
theorem c4_ranges_cover_from_first_start :
    (∀ (numPages : Nat) (sec : Section) (rest : List Section),
      (∀ s ∈ sec :: rest, 1 ≤ s.startPage ∧ s.startPage ≤ numPages) →
      List.Chain' (fun a b => a.startPage ≤ b.startPage) (sec :: rest) →
      pagesRead numPages (sec :: rest) =
        List.range' sec.startPage (numPages + 1 - sec.startPage) ∧
      (pagesRead numPages (sec :: rest)).Nodup ∧
      (∀ p, p ∈ pagesRead numPages (sec :: rest) ↔
        sec.startPage ≤ p ∧ p ≤ numPages)) ∧
    (∀ numPages : Nat,
      pagesRead numPages (fallbackSections numPages) = List.range' 1 numPages) := by
  constructor
  · intro P sec rest hb hc
    have heq := pagesRead_sorted P sec rest hb hc
    obtain ⟨h1, h2⟩ := hb sec (by simp)
    refine ⟨heq, ?_, ?_⟩
    · rw [heq]
      exact List.nodup_range' _ _
    · intro p
      rw [heq, List.mem_range'_1]
      omega
  · intro P
    cases P with
    | zero => rfl
    | succ n =>
      have hmain := pagesRead_sorted (n + 1) (pageSection 1)
        ((List.range' 2 n).map pageSection)
        (by
          intro s hs
          rcases List.mem_cons.mp hs with rfl | hs
          · refine ⟨?_, ?_⟩ <;> simp [pageSection]
          · simp only [List.mem_map] at hs
            obtain ⟨i, hi, rfl⟩ := hs
            rw [List.mem_range'_1] at hi
            refine ⟨?_, ?_⟩ <;> simp only [pageSection] <;> omega)
        (by
          rw [show pageSection 1 :: (List.range' 2 n).map pageSection =
              (List.range' 1 (n + 1)).map pageSection from rfl]
          rw [List.chain'_map]
          exact (chain'_le_range' (n + 1) 1).imp
            (fun a b hab => by simp only [pageSection]; exact hab))
      have hfb : fallbackSections (n + 1) =
          pageSection 1 :: (List.range' 2 n).map pageSection := rfl
      rw [hfb, hmain]
      simp [pageSection]

/-- Witness for claim C4 (amended) at a single section starting at page 2
of a 3-page document: exactly pages 2 and 3 are read. -/
theorem c4_ranges_cover_from_first_start_witness :
    pagesRead 3 [{ title := "A", startPage := 2, level := some 0, hasValidPage := true }] =
      List.range' 2 2 :=
  (c4_ranges_cover_from_first_start.1 3
    { title := "A", startPage := 2, level := some 0, hasValidPage := true } []
    (by decide) (by simp)).1

/-- The startPages assigned to the invalid sections are the multiples of
the spread quotient, by 1-based rank. -/
theorem assignInvalidPages_map_startPage (numPages count : Nat) :
    ∀ (l : List Section) (i : Nat),
      (assignInvalidPages numPages count l i).map (fun s => s.startPage) =
        (List.range' (i + 1) l.length).map
          (fun r => ceilDiv numPages (count + 1) * r) := by
  intro l
  induction l with
  | nil => intro i; rfl
  | cons s rest ih =>
    intro i
    simp only [assignInvalidPages, List.map_cons]
    rw [ih]
    rfl

/-- Page assignment does not touch the hasValidPage flags. -/
theorem assignInvalidPages_map_hasValidPage (numPages count : Nat) :
    ∀ (l : List Section) (i : Nat),
      (assignInvalidPages numPages count l i).map (fun s => s.hasValidPage) =
        l.map (fun s => s.hasValidPage) := by
  intro l
  induction l with
  | nil => intro i; rfl
  | cons s rest ih =>
    intro i
    simp only [assignInvalidPages, List.map_cons]
    rw [ih]

/-- Page assignment does not touch the titles, hence keeps discovery
order. -/
theorem assignInvalidPages_map_title (numPages count : Nat) :
    ∀ (l : List Section) (i : Nat),
      (assignInvalidPages numPages count l i).map (fun s => s.title) =
        l.map (fun s => s.title) := by
  intro l
  induction l with
  | nil => intro i; rfl
  | cons s rest ih =>
    intro i
    simp only [assignInvalidPages, List.map_cons]
    rw [ih]

/-- A permutation between a weakly sorted list and a strictly sorted list
under the same measure forces the two lists to be equal. -/
theorem eq_of_perm_of_le_sorted_of_lt_sorted {α : Type} (f : α → Nat) :
    ∀ {l₁ l₂ : List α}, l₁.Perm l₂ →
      l₁.Pairwise (fun a b => f a ≤ f b) →
      l₂.Pairwise (fun a b => f a < f b) → l₁ = l₂ := by
  intro l₁
  induction l₁ with
  | nil =>
    intro l₂ hp _ _
    exact hp.nil_eq
  | cons a t₁ ih =>
    intro l₂ hp hs₁ hs₂
    cases l₂ with
    | nil =>
      have := hp.eq_nil
      simp at this
    | cons b t₂ =>
      have hab : a = b := by
        by_contra hne
        have ha2 : a ∈ b :: t₂ := hp.subset (List.mem_cons_self a t₁)
        have ha2' : a ∈ t₂ := by
          rcases List.mem_cons.mp ha2 with h | h
          · exact absurd h hne
          · exact h
        have hflt : f b < f a := (List.pairwise_cons.mp hs₂).1 a ha2'
        have hb1 : b ∈ a :: t₁ := hp.symm.subset (List.mem_cons_self b t₂)
        rcases List.mem_cons.mp hb1 with h | h
        · exact hne h.symm
        · have : f a ≤ f b := (List.pairwise_cons.mp hs₁).1 b h
          omega
      subst hab
      rw [ih hp.cons_inv (List.pairwise_cons.mp hs₁).2 (List.pairwise_cons.mp hs₂).2]

/-- Claim C3: with at least one resolved section and a positive page
count, the unresolved sections of the distribution output are exactly the
rank-assigned invalid sections, in discovery order: the section at
1-based rank r among the unresolved receives page
ceil(numPages / (count + 1)) * r, and titles are preserved in order. -/
theorem c3_invalid_sections_distributed_by_rank (numPages : Nat)
    (dedupedSections : List Section)
    (hP : 0 < numPages)
    (hvalid : (dedupedSections.filter (fun s => s.hasValidPage)).length > 0) :
    (distributeSections numPages dedupedSections).filter (fun s => !s.hasValidPage) =
      assignInvalidPages numPages
        (dedupedSections.filter (fun s => !s.hasValidPage)).length
        (dedupedSections.filter (fun s => !s.hasValidPage)) 0 ∧
    ((distributeSections numPages dedupedSections).filter
        (fun s => !s.hasValidPage)).map (fun s => s.startPage) =
      (List.range' 1 (dedupedSections.filter (fun s => !s.hasValidPage)).length).map
        (fun r => ceilDiv numPages
          ((dedupedSections.filter (fun s => !s.hasValidPage)).length + 1) * r) ∧
    ((distributeSections numPages dedupedSections).filter
        (fun s => !s.hasValidPage)).map (fun s => s.title) =
      (dedupedSections.filter (fun s => !s.hasValidPage)).map (fun s => s.title) := by
  have hdist : distributeSections numPages dedupedSections =
      sortByStartPage
        (sortByStartPage (dedupedSections.filter (fun s => s.hasValidPage)) ++
          assignInvalidPages numPages
            (dedupedSections.filter (fun s => !s.hasValidPage)).length
            (dedupedSections.filter (fun s => !s.hasValidPage)) 0) := by
    unfold distributeSections
    rw [if_pos hvalid]
  have hcpos : 0 < ceilDiv numPages
      ((dedupedSections.filter (fun s => !s.hasValidPage)).length + 1) := by
    unfold ceilDiv
    exact Nat.div_pos (by omega) (by omega)
  have hmapsp := assignInvalidPages_map_startPage numPages
    (dedupedSections.filter (fun s => !s.hasValidPage)).length
    (dedupedSections.filter (fun s => !s.hasValidPage)) 0
  have hperm1 : (distributeSections numPages dedupedSections).Perm
      (sortByStartPage (dedupedSections.filter (fun s => s.hasValidPage)) ++
        assignInvalidPages numPages
          (dedupedSections.filter (fun s => !s.hasValidPage)).length
          (dedupedSections.filter (fun s => !s.hasValidPage)) 0) := by
    rw [hdist]
    exact List.perm_insertionSort _ _
  have hpermF := hperm1.filter (fun s => !s.hasValidPage)
  rw [List.filter_append] at hpermF
  have hvfilter : (sortByStartPage
      (dedupedSections.filter (fun s => s.hasValidPage))).filter
      (fun s => !s.hasValidPage) = [] := by
    have hpv : ((sortByStartPage
        (dedupedSections.filter (fun s => s.hasValidPage))).filter
        (fun s => !s.hasValidPage)).Perm
        ((dedupedSections.filter (fun s => s.hasValidPage)).filter
          (fun s => !s.hasValidPage)) :=
      (List.perm_insertionSort _ _).filter _
    have hnil : (dedupedSections.filter (fun s => s.hasValidPage)).filter
        (fun s => !s.hasValidPage) = [] := by
      rw [List.filter_eq_nil_iff]
      intro s hs
      have hv := (List.mem_filter.mp hs).2
      simp [hv]
    rw [hnil] at hpv
    exact hpv.eq_nil
  rw [hvfilter, List.nil_append] at hpermF
  have hinvfilter : (assignInvalidPages numPages
      (dedupedSections.filter (fun s => !s.hasValidPage)).length
      (dedupedSections.filter (fun s => !s.hasValidPage)) 0).filter
      (fun s => !s.hasValidPage) =
      assignInvalidPages numPages
        (dedupedSections.filter (fun s => !s.hasValidPage)).length
        (dedupedSections.filter (fun s => !s.hasValidPage)) 0 := by
    apply List.filter_eq_self.mpr
    intro s hs
    have hmem : s.hasValidPage ∈ (assignInvalidPages numPages
        (dedupedSections.filter (fun s => !s.hasValidPage)).length
        (dedupedSections.filter (fun s => !s.hasValidPage)) 0).map
        (fun s => s.hasValidPage) := List.mem_map_of_mem _ hs
    rw [assignInvalidPages_map_hasValidPage] at hmem
    obtain ⟨t, ht, hts⟩ := List.mem_map.mp hmem
    have hq := (List.mem_filter.mp ht).2
    rw [← hts]
    exact hq
  rw [hinvfilter] at hpermF
  have hsortF : ((distributeSections numPages dedupedSections).filter
      (fun s => !s.hasValidPage)).Pairwise
      (fun a b => a.startPage ≤ b.startPage) := by
    apply List.Pairwise.filter
    rw [hdist]
    exact List.sorted_insertionSort _ _
  have hstrict : (assignInvalidPages numPages
      (dedupedSections.filter (fun s => !s.hasValidPage)).length
      (dedupedSections.filter (fun s => !s.hasValidPage)) 0).Pairwise
      (fun a b => a.startPage < b.startPage) := by
    have h1 : ((assignInvalidPages numPages
        (dedupedSections.filter (fun s => !s.hasValidPage)).length
        (dedupedSections.filter (fun s => !s.hasValidPage)) 0).map
        (fun s => s.startPage)).Pairwise (fun a b : Nat => a < b) := by
      rw [hmapsp, List.pairwise_map]
      have hr : (List.range' 1
          (dedupedSections.filter (fun s => !s.hasValidPage)).length).Pairwise
          (fun a b : Nat => a < b) := List.pairwise_lt_range' _ _
      exact hr.imp (fun hab => mul_lt_mul_of_pos_left hab hcpos)
    rw [List.pairwise_map] at h1
    exact h1
  have heq := eq_of_perm_of_le_sorted_of_lt_sorted (fun s => s.startPage)
    hpermF hsortF hstrict
  refine ⟨heq, ?_, ?_⟩
  · rw [heq, hmapsp]
  · rw [heq, assignInvalidPages_map_title]

/-- Witness for claim C3: one resolved and four unresolved sections with
page count 20 put the unresolved sections on pages 4, 8, 12 and 16. -/
theorem c3_invalid_sections_distributed_by_rank_witness :
    ((distributeSections 20
        [{ title := "V", startPage := 1, level := some 0, hasValidPage := true },
         { title := "A", startPage := 9, level := some 0, hasValidPage := false },
         { title := "B", startPage := 9, level := some 0, hasValidPage := false },
         { title := "C", startPage := 9, level := some 0, hasValidPage := false },
         { title := "D", startPage := 9, level := some 0, hasValidPage := false }]).filter
      (fun s => !s.hasValidPage)).map (fun s => s.startPage) = [4, 8, 12, 16] := by
  have h := (c3_invalid_sections_distributed_by_rank 20
    [{ title := "V", startPage := 1, level := some 0, hasValidPage := true },
     { title := "A", startPage := 9, level := some 0, hasValidPage := false },
     { title := "B", startPage := 9, level := some 0, hasValidPage := false },
     { title := "C", startPage := 9, level := some 0, hasValidPage := false },
     { title := "D", startPage := 9, level := some 0, hasValidPage := false }]
    (by decide) (by decide)).2.1
  exact h.trans (by decide)

end AccuraRate
